import Mathlib

/-!
Verification of the moondream-station CLI lifecycle manager
(`src/app/hypervisor/clivisor.py` and `src/app/inference_client/misc.py`)
against its natural-language specification.

The Python code is shallowly embedded: strings are Lean `String`s
(manipulated through their `List Char` data where line/segment splitting
is needed), the filesystem is an explicit finite map from path strings to
file contents plus a set of directories, and fallible external effects
(network download, archive extraction, symlink creation, process launch)
are driven by explicit boolean oracles passed in as arguments.

Scope notes on fidelity:
- Python `int(s)` is modelled for ASCII strings: an optional single
  leading sign followed by one or more ASCII decimal digits.  Python's
  extra tolerance (surrounding whitespace, underscores between digits,
  non-ASCII digits) is outside the inputs this program handles and is
  not modelled.
- Python `str.splitlines` is modelled for contents whose only line
  terminator is the newline character, the only terminator this program
  ever writes.
- `re.findall` of one-or-more-digit runs matches ASCII digits here.
- File modes (`chmod`) are not modelled; no claim depends on them.
-/

namespace Moondream

/-- Split a character list on a separator character, Python `str.split`
style: the result always has one more segment than there are separator
occurrences, and `[]` splits to `[[]]` (Python `"".split(".") == [""]`). -/
def splitSeg (sep : Char) : List Char → List (List Char)
  | [] => [[]]
  | c :: rest =>
    if c = sep then [] :: splitSeg sep rest
    else
      match splitSeg sep rest with
      | [] => [[c]]
      | s :: ss => (c :: s) :: ss

/-- Split a character list at every character satisfying `p`, keeping
empty segments (generalisation of `splitSeg` used to state what a
maximal digit run is). -/
def splitByP (p : Char → Bool) : List Char → List (List Char)
  | [] => [[]]
  | c :: rest =>
    if p c then [] :: splitByP p rest
    else
      match splitByP p rest with
      | [] => [[c]]
      | s :: ss => (c :: s) :: ss

/-- Numeric value of a list of ASCII decimal digits, most significant
first. -/
def digitsToNat (l : List Char) : Nat :=
  l.foldl (fun a c => 10 * a + (c.toNat - 48)) 0

/-- Parse a nonempty all-digit character list; `none` otherwise. -/
def decDigits (l : List Char) : Option Nat :=
  if !l.isEmpty && l.all (fun c => c.isDigit) then some (digitsToNat l) else none

/-- Model of Python `int(s)` on the ASCII fragment: optional single
leading sign, then one or more decimal digits. -/
def pyIntCh (cs : List Char) : Option Int :=
  match cs with
  | '-' :: rest => (decDigits rest).map (fun n => -(n : Int))
  | '+' :: rest => (decDigits rest).map (fun n => (n : Int))
  | _ => (decDigits cs).map (fun n => (n : Int))

/-- Collect the results of a fallible parser over a list, failing if any
element fails (the Python generator `tuple(int(part) for part in ...)`
raising `ValueError` on the first bad part). -/
def optMapM (f : List Char → Option Int) : List (List Char) → Option (List Int)
  | [] => some []
  | x :: xs =>
    match f x, optMapM f xs with
    | some v, some vs => some (v :: vs)
    | _, _ => none

/-- Strip one optional leading version-prefix character, from
`misc.parse_version`: `if version and (version[0] in ("v", "V")): version = version[1:]`. -/
def stripV (cs : List Char) : List Char :=
  match cs with
  | [] => []
  | c :: rest => if c = 'v' ∨ c = 'V' then rest else c :: rest

/-- Split on dots and parse every segment as an integer, the body of
`misc.parse_version` after the prefix strip. -/
def verCore (cs : List Char) : Option (List Int) :=
  optMapM pyIntCh (splitSeg '.' cs)

/-- Embedding of `misc.parse_version`: strip one optional leading
`v`/`V`, split on `.`, and convert each component to an integer;
`none` models the `ValueError` raised on a non-numeric component. -/
def parse_version (s : String) : Option (List Int) :=
  verCore (stripV s.data)

/-- Accumulator pass extracting the maximal digit runs of a string in
left-to-right order, the embedding of `re.findall(r"\d+", revision)`
in `misc.parse_revision`. -/
def digitRunsAux : List Char → List Char → List (List Char)
  | [], acc => if acc.isEmpty then [] else [acc.reverse]
  | c :: rest, acc =>
    if c.isDigit then digitRunsAux rest (c :: acc)
    else if acc.isEmpty then digitRunsAux rest []
    else acc.reverse :: digitRunsAux rest []

/-- Embedding of `misc.parse_revision`: every maximal run of digits,
each converted to an integer; `[0]` when the string has no digit. -/
def parse_revision (s : String) : List Int :=
  let runs := digitRunsAux s.data []
  if runs.isEmpty then [0] else runs.map (fun r => (digitsToNat r : Int))

/-- Stated from the claim's words, for comparison with the source-derived
scan: the maximal runs of digits of a string are the nonempty segments
obtained by cutting at every non-digit character. -/
def maximalDigitRuns (cs : List Char) : List (List Char) :=
  (splitByP (fun c => !c.isDigit) cs).filter (fun l => !l.isEmpty)

/-- Python tuple `<` on integer tuples: strict lexicographic order in
which a proper prefix is smaller. -/
def tupLt : List Int → List Int → Bool
  | [], [] => false
  | [], _ :: _ => true
  | _ :: _, [] => false
  | a :: as, b :: bs => a < b || (a == b && tupLt as bs)

/-- VersionCode ordering on version strings as the specification
describes it: the order induced by `parse_version` on the two strings
(false when either fails to parse). -/
def versionLtB (a b : String) : Bool :=
  match parse_version a, parse_version b with
  | some x, some y => tupLt x y
  | _, _ => false

/-- The manifest collaborator's `current_cli` entry: latest available
version string and its download URL. -/
structure Manifest where
  version : String
  url : String
deriving DecidableEq

/-- Result of `CLIVisor.check_for_update`: the `"ood"` (out of date)
flag and the `"version"` field of the returned dict. -/
structure UpdateStatus where
  ood : Bool
  version : String
deriving DecidableEq

/-- Embedding of `CLIVisor.check_for_update`.  The `m` argument is the
manifest value after the optional `self.manifest.update()` refresh; the
function reads `config.active_cli` (passed as `active`) and the
manifest's current version.  The source sets `ood` to `True` exactly
when `self.config.active_cli != self.manifest.current_cli["version"]`. -/
def check_for_update (active : String) (m : Manifest) : UpdateStatus :=
  let ret : UpdateStatus := { ood := false, version := m.version }
  if active ≠ m.version then { ret with ood := true } else ret

/-- Filesystem state: a finite association from absolute path to file
content, plus the set of directories.  Paths are plain strings, as the
Python code joins them with `/`. -/
structure FS where
  files : List (String × String)
  dirs : List String
deriving DecidableEq

/-- Content of the file at `p`, if a file is there. -/
def FS.getFile (fs : FS) (p : String) : Option String :=
  (fs.files.find? (fun e => e.1 == p)).map (fun e => e.2)

/-- Model of `os.path.isfile`. -/
def FS.isFile (fs : FS) (p : String) : Bool :=
  (fs.getFile p).isSome

/-- Model of `os.path.isdir`. -/
def FS.isDir (fs : FS) (p : String) : Bool :=
  fs.dirs.contains p

/-- Model of `os.path.exists` / `Path.exists`. -/
def FS.pathExists (fs : FS) (p : String) : Bool :=
  fs.isFile p || fs.isDir p

/-- Create or overwrite the file at `p` with content `c`
(`Path.write_text`, `urlretrieve`'s write, or extraction of one archive
member).  The association list is kept deduplicated by storing the new
binding in front of the remaining ones. -/
def FS.setFile (fs : FS) (p c : String) : FS :=
  { fs with files := (p, c) :: fs.files.filter (fun e => e.1 != p) }

/-- Model of `os.remove` on a file path. -/
def FS.removeFile (fs : FS) (p : String) : FS :=
  { fs with files := fs.files.filter (fun e => e.1 != p) }

/-- Decide whether the first character list is a leading segment of the
second (used for the directory-subtree test in `rmtree`). -/
def listPre : List Char → List Char → Bool
  | [], _ => true
  | _ :: _, [] => false
  | a :: as, b :: bs => a == b && listPre as bs

/-- Model of `shutil.rmtree p`: drop every file and directory lying
under `p`, and `p` itself. -/
def FS.rmtree (fs : FS) (p : String) : FS :=
  { files := fs.files.filter (fun e => !listPre (p ++ "/").data e.1.data),
    dirs := fs.dirs.filter (fun d => d != p && !listPre (p ++ "/").data d.data) }

/-- Model of `Path.mkdir(parents=True, exist_ok=True)` given the chain
of directories to ensure: each missing one is appended. -/
def FS.mkdirp (fs : FS) (ps : List String) : FS :=
  { fs with dirs := fs.dirs ++ ps.filter (fun d => !fs.dirs.contains d) }

/-- Python `str.splitlines` on character lists, for text whose only
line terminator is the newline character: split at every newline and
drop the final empty segment left by a trailing newline (so that empty
input yields no lines). -/
def pySplitCh (cs : List Char) : List (List Char) :=
  let segs := splitSeg '\n' cs
  if segs.getLast? = some [] then segs.dropLast else segs

/-- Python `str.splitlines` on strings. -/
def pyLines (s : String) : List String :=
  (pySplitCh s.data).map (fun l => String.mk l)

/-- The exact PATH line appended to shell profile files,
`export PATH="$HOME/.local/bin:$PATH"`. -/
def pathLine : String :=
  "export PATH=\"$HOME/.local/bin:$PATH\""

/-- Content of a profile file after the PATH line has been appended to
it: a separating newline first when the file had any line, then the
PATH line, newline-terminated. -/
def withPathLine (content : String) : String :=
  content ++ (if (pyLines content).isEmpty then "" else "\n") ++ pathLine ++ "\n"

/-- Observational equality of filesystem states: same file contents at
every path and the same directories. -/
def FS.extEq (a b : FS) : Prop :=
  (∀ q : String, a.getFile q = b.getFile q) ∧ a.dirs = b.dirs

/-- Body of the wrapper script written by `install_moondream_cli`
(the dedented f-string). -/
def wrapperScript (venv_py cli_py : String) : String :=
  "#!/usr/bin/env sh\nexec \"" ++ venv_py ++ "\" \"" ++ cli_py ++ "\" \"$@\"\n"

/-- The closed set of platforms `misc.check_platform` can report. -/
inductive Platform where
  | macOS
  | linux
  | other
deriving DecidableEq

/-- Shell profile files consulted for the PATH line, in source order:
the `PLATFORM == "macOS"` list, and the `else` list used for Linux and
any other platform. -/
def profileFiles (p : Platform) (home : String) : List String :=
  match p with
  | .macOS =>
    [home ++ "/.zprofile", home ++ "/.zshrc", home ++ "/.bash_profile", home ++ "/.bashrc"]
  | _ =>
    [home ++ "/.profile", home ++ "/.bash_profile", home ++ "/.zshrc", home ++ "/.bashrc"]

/-- The two `FileNotFoundError` precondition failures of
`install_moondream_cli`: missing CLI entry point, missing interpreter. -/
inductive InstallErr where
  | missingEntryPoint
  | missingInterpreter
deriving DecidableEq

/-- Outcome of `install_moondream_cli`: the returned wrapper path with
the filesystem after the run, or a raised error with the filesystem at
the moment of the raise. -/
inductive IResult where
  | ok (fs : FS) (wrapper : String)
  | err (e : InstallErr) (fs : FS)
deriving DecidableEq

/-- Filesystem carried by an `IResult`. -/
def IResult.fsOf : IResult → FS
  | .ok fs _ => fs
  | .err _ fs => fs

/-- Error raised by an install call, if any. -/
def IResult.errOf : IResult → Option InstallErr
  | .ok _ _ => none
  | .err e _ => some e

/-- Processing of one shell profile file `rc` by the loop at the end of
`install_moondream_cli`: read its lines if it exists (a directory makes
`read_text` raise `OSError`, which the loop catches and skips), and
append the PATH line when it is not already among the lines, writing a
separating newline first when the file had any line.  Appending to a
nonexistent path creates the file (`Path.open("a")`). -/
def addPathLine (fs : FS) (rc : String) : FS :=
  if fs.isDir rc then fs
  else
    let content := (fs.getFile rc).getD ""
    if pathLine ∈ pyLines content then fs
    else fs.setFile rc (withPathLine content)

/-- Embedding of `clivisor.install_moondream_cli`.  `symlinkOk` is the
oracle for whether `symlink_to` would succeed (its failure is caught
and logged).  Preconditions are checked before any mutation; then the
`~/.local/bin` directory is ensured, the wrapper script written, the
`/usr/local/bin` symlink best-effort created on Linux, and the PATH
line propagated to the platform's profile files. -/
def install_moondream_cli (p : Platform) (symlinkOk : Bool) (home : String)
    (fs : FS) (cli_py_path venv_path cli_name : String) : IResult :=
  let venv_py := venv_path ++ "/bin/python"
  if !fs.pathExists cli_py_path then .err .missingEntryPoint fs
  else if !fs.pathExists venv_py then .err .missingInterpreter fs
  else
    let bin_dir := home ++ "/.local/bin"
    let wrapper := bin_dir ++ "/" ++ cli_name
    let fs1 := fs.mkdirp [home ++ "/.local", bin_dir]
    let fs2 := fs1.setFile wrapper (wrapperScript venv_py cli_py_path)
    let fs3 :=
      if p = Platform.linux then
        let usr := "/usr/local/bin/" ++ cli_name
        if !fs2.pathExists usr then
          if symlinkOk then fs2.setFile usr ("symlink:" ++ wrapper) else fs2
        else fs2
      else fs2
    let fs4 := (profileFiles p home).foldl addPathLine fs3
    .ok fs4 wrapper

/-- Filesystem after an install call, successful or not. -/
def installFS (p : Platform) (symlinkOk : Bool) (home : String)
    (fs : FS) (cli_py_path venv_path cli_name : String) : FS :=
  (install_moondream_cli p symlinkOk home fs cli_py_path venv_path cli_name).fsOf

/-- The mutation part of `install_moondream_cli` for the default
command name, with the joined paths written out, used to state what a
successful install does (`install_ok` proves it equal to the body of
`install_moondream_cli` once the preconditions hold). -/
def installBody (p : Platform) (symlinkOk : Bool) (home : String)
    (fs : FS) (cli venv : String) : FS :=
  let wrapper := home ++ "/.local/bin/moondream"
  let fs1 := fs.mkdirp [home ++ "/.local", home ++ "/.local/bin"]
  let fs2 := fs1.setFile wrapper (wrapperScript (venv ++ "/bin/python") cli)
  let fs3 :=
    if p = Platform.linux then
      if !fs2.pathExists "/usr/local/bin/moondream" then
        if symlinkOk then fs2.setFile "/usr/local/bin/moondream" ("symlink:" ++ wrapper)
        else fs2
      else fs2
    else fs2
  (profileFiles p home).foldl addPathLine fs3

/-- Oracle for the external effects of `_download_and_extract_cli`:
whether the download succeeds, whether a failed download leaves a
partial file behind, whether extraction succeeds, the files (relative
path and content) the archive extracts into the base directory, and
whether the best-effort `rmtree` of a pre-existing install succeeds. -/
structure NetEnv where
  downloadOk : Bool
  partialOnFail : Bool
  extractOk : Bool
  payload : List (String × String)
  rmtreeOk : Bool
deriving DecidableEq

/-- Externally visible actions of a run, used to state that a code path
performs no fetch or extraction. -/
inductive Ev where
  | fetch (url : String)
  | extract
  | wrapperWrite
deriving DecidableEq

/-- Embedding of `CLIVisor._download_and_extract_cli`.  Removes a
pre-existing `moondream_cli` directory best-effort, downloads the
archive to `<base>/moondream_cli.tar.gz`, extracts into `base`, removes
the archive (also in the exception handler, when it exists), and
reports success as `os.path.isfile` of the expected entry point; every
failure inside the `try` is caught and turned into `false`. -/
def dlExtract (env : NetEnv) (url : String) (fs : FS) (base : String) :
    Bool × FS × List Ev :=
  let dir := base ++ "/moondream_cli"
  let tar := base ++ "/moondream_cli.tar.gz"
  let entry := dir ++ "/moondream-cli.py"
  let fs1 := if fs.isDir dir then (if env.rmtreeOk then fs.rmtree dir else fs) else fs
  if env.downloadOk then
    let fs2 := fs1.setFile tar ("targz:" ++ url)
    if env.extractOk then
      let fs3 := env.payload.foldl (fun a kv => a.setFile (base ++ "/" ++ kv.1) kv.2) fs2
      let fs4 := fs3.removeFile tar
      (fs4.isFile entry, fs4, [Ev.fetch url, Ev.extract])
    else
      let fs3 := if fs2.pathExists tar then fs2.removeFile tar else fs2
      (false, fs3, [Ev.fetch url, Ev.extract])
  else
    let fs2 := if env.partialOnFail then fs1.setFile tar "partial" else fs1
    let fs3 := if fs2.pathExists tar then fs2.removeFile tar else fs2
    (false, fs3, [Ev.fetch url])

/-- Outcome of `CLIVisor.update` / `CLIVisor.boot`: normal return with
the final filesystem, or a propagated `install_moondream_cli` error. -/
inductive RunResult where
  | ok (fs : FS)
  | err (e : InstallErr) (fs : FS)
deriving DecidableEq

/-- The propagated error of a run, if any. -/
def RunResult.errOf : RunResult → Option InstallErr
  | .ok _ => none
  | .err e _ => some e

/-- Forget the wrapper path of an install outcome. -/
def toRun : IResult → RunResult
  | .ok fs _ => .ok fs
  | .err e fs => .err e fs

/-- Event contributed by an install call: a wrapper write when it ran
to completion, nothing when it raised first. -/
def instEv : IResult → List Ev
  | .ok _ _ => [Ev.wrapperWrite]
  | .err _ _ => []

/-- Embedding of `CLIVisor.update`.  `m` is the manifest after the
refresh performed inside `check_for_update`; when the status is not out
of date the method returns at once, otherwise it re-runs download,
extraction and wrapper installation (whose result is dropped and whose
errors propagate). -/
def update (m : Manifest) (active : String) (env : NetEnv) (p : Platform)
    (symlinkOk : Bool) (fs : FS) (base home : String) : RunResult × List Ev :=
  let status := check_for_update active m
  if !status.ood then (.ok fs, [])
  else
    let r := dlExtract env m.url fs base
    let ir := install_moondream_cli p symlinkOk home r.2.1
      (base ++ "/moondream_cli/moondream-cli.py") (base ++ "/.venv") "moondream"
    (toRun ir, r.2.2 ++ instEv ir)

/-- The launch step of `boot`, as the `try` block sees it: launching on
macOS or Linux may fail (oracle `launchOk`), and any other platform
raises the unsupported-platform `ValueError` before spawning anything. -/
def launchTry (p : Platform) (launchOk : Bool) : Except String Unit :=
  match p with
  | .macOS => if launchOk then .ok () else .error "launch failed"
  | .linux => if launchOk then .ok () else .error "launch failed"
  | .other => .error "Moondream-cli only supports macOS and Ubuntu"

/-- The part of `CLIVisor.boot` before the launch `try` block: when the
entry point is absent, download and install (errors propagate), then in
every case re-run wrapper installation. -/
def bootCore (m : Manifest) (env : NetEnv) (p : Platform) (symlinkOk : Bool)
    (fs : FS) (base home : String) : RunResult × List Ev :=
  let cli_path := base ++ "/moondream_cli/moondream-cli.py"
  let venv := base ++ "/.venv"
  if !fs.pathExists cli_path then
    let r := dlExtract env m.url fs base
    match install_moondream_cli p symlinkOk home r.2.1 cli_path venv "moondream" with
    | .err e fs2 => (.err e fs2, r.2.2)
    | .ok fs2 _ =>
      let ir2 := install_moondream_cli p symlinkOk home fs2 cli_path venv "moondream"
      (toRun ir2, r.2.2 ++ [Ev.wrapperWrite] ++ instEv ir2)
  else
    let ir2 := install_moondream_cli p symlinkOk home fs cli_path venv "moondream"
    (toRun ir2, instEv ir2)

/-- Embedding of `CLIVisor.boot`: the install phase (`bootCore`), then
the launch attempt whose failure is caught and logged — the third
component is the error log written by the `except` handler. -/
def boot (m : Manifest) (env : NetEnv) (p : Platform) (symlinkOk launchOk : Bool)
    (fs : FS) (base home : String) : RunResult × List Ev × List String :=
  match bootCore m env p symlinkOk fs base home with
  | (RunResult.err e fs2, evs) => (.err e fs2, evs, [])
  | (RunResult.ok fs2, evs) =>
    match launchTry p launchOk with
    | .ok _ => (.ok fs2, evs, [])
    | .error msg => (.ok fs2, evs, ["Failed to launch CLI in new window: " ++ msg])

theorem find?_filter_ne_eq_none (l : List (String × String)) (p : String) :
    (l.filter (fun e => e.1 != p)).find? (fun e => e.1 == p) = none := by
  induction l with
  | nil => rfl
  | cons a t ih =>
    by_cases h : a.1 = p
    · simp only [List.filter_cons, h, bne_self_eq_false, ite_false]
      exact ih
    · have hb : (a.1 != p) = true := by simp [bne_iff_ne, h]
      have hq : (a.1 == p) = false := by simp [h]
      simp only [List.filter_cons, hb, ite_true, List.find?_cons, hq]
      exact ih

theorem isFile_removeFile_self (fs : FS) (p : String) :
    (fs.removeFile p).isFile p = false := by
  simp [FS.isFile, FS.getFile, FS.removeFile, find?_filter_ne_eq_none]

theorem isFile_false_of_pathExists_false {fs : FS} {p : String}
    (h : fs.pathExists p = false) : fs.isFile p = false := by
  unfold FS.pathExists at h
  exact (Bool.or_eq_false_iff.mp h).1

theorem entry_path_eq (base : String) :
    base ++ "/moondream_cli" ++ "/moondream-cli.py" = base ++ "/moondream_cli/moondream-cli.py" := by
  rw [String.append_assoc]
  rfl

/-- C1 counterexample: with `active_cli = "2.0.0"` and manifest current
version `"1.0.0"`, `check_for_update` sets the out-of-date flag even
though the local version is not ordered before the manifest version
under VersionCode ordering, refuting the claim as stated. -/
theorem c1_counterexample :
    (check_for_update "2.0.0" { version := "1.0.0", url := "u" }).ood = true ∧
    versionLtB "2.0.0" "1.0.0" = false := by
  decide

/-- C1 (amended): for every config state and manifest,
`check_for_update` returns a status whose out-of-date flag is true
exactly when the locally recorded `active_cli` string differs from the
manifest's current version string (plain string inequality, not
VersionCode ordering), and whose version field equals the manifest's
current version string. -/
theorem c1_string_inequality (active : String) (m : Manifest) :
    (check_for_update active m).ood = (active != m.version) ∧
    (check_for_update active m).version = m.version := by
  unfold check_for_update
  by_cases h : active = m.version <;> simp [h, bne_iff_ne]

/-- C4: whenever `check_for_update` reports not out of date, `update`
returns immediately with the filesystem untouched and performs no
fetch, no extraction and no wrapper installation (empty event list). -/
theorem c4_update_noop (m : Manifest) (active : String) (env : NetEnv)
    (p : Platform) (symlinkOk : Bool) (fs : FS) (base home : String)
    (h : (check_for_update active m).ood = false) :
    update m active env p symlinkOk fs base home = (RunResult.ok fs, ([] : List Ev)) := by
  unfold update
  simp [h]

/-- C4 witness: with `active_cli = "1.0.0"` and manifest version
`"1.0.0"`, the status is not out of date and `update` is a no-op. -/
theorem c4_update_noop_witness :
    update { version := "1.0.0", url := "u" } "1.0.0"
        { downloadOk := true, partialOnFail := false, extractOk := true,
          payload := [], rmtreeOk := true }
        Platform.linux true { files := [], dirs := [] } "/b" "/h"
      = (RunResult.ok { files := [], dirs := [] }, ([] : List Ev)) :=
  c4_update_noop _ _ _ _ _ _ _ _ (by decide)

/-- C5: the download-and-extract operation reports success exactly when
the download succeeded, the extraction succeeded, and the expected
entry-point file exists at the computed path afterwards; in every other
outcome it reports failure. -/
theorem c5_success_iff (env : NetEnv) (url : String) (fs : FS) (base : String) :
    (dlExtract env url fs base).1 = true ↔
      env.downloadOk = true ∧ env.extractOk = true ∧
        ((dlExtract env url fs base).2.1).isFile
          (base ++ "/moondream_cli/moondream-cli.py") = true := by
  rcases env with ⟨dl, po, ex, pay, rt⟩
  cases dl <;> cases ex <;> simp [dlExtract, entry_path_eq]

/-- C6: after every invocation of the download-and-extract operation,
whatever the outcome, the temporary archive file
`<base>/moondream_cli.tar.gz` no longer exists. -/
theorem c6_tar_removed (env : NetEnv) (url : String) (fs : FS) (base : String) :
    ((dlExtract env url fs base).2.1).isFile (base ++ "/moondream_cli.tar.gz") = false := by
  rcases env with ⟨dl, po, ex, pay, rt⟩
  cases dl <;> cases ex <;> simp only [dlExtract, Bool.false_eq_true, if_false, if_true]
  case mk.true.true =>
    exact isFile_removeFile_self _ _
  all_goals
    repeat' split
  all_goals
    first
    | exact isFile_removeFile_self _ _
    | (rename_i h; exact isFile_false_of_pathExists_false (eq_false_of_ne_true h))

/-- C9: the result and event list of `boot` coincide with those of its
install phase for every launch outcome — launch failures, including the
unsupported-platform error raised inside the `try` block, are caught,
logged (the log records exactly the launch failures reached after a
successful install phase), and never propagate. -/
theorem c9_launch_failures_swallowed (m : Manifest) (env : NetEnv) (p : Platform)
    (symlinkOk launchOk : Bool) (fs : FS) (base home : String) :
    ((boot m env p symlinkOk launchOk fs base home).1
        = (bootCore m env p symlinkOk fs base home).1 ∧
      (boot m env p symlinkOk launchOk fs base home).2.1
        = (bootCore m env p symlinkOk fs base home).2) ∧
    (boot m env p symlinkOk launchOk fs base home).2.2
      = (match (bootCore m env p symlinkOk fs base home).1, launchTry p launchOk with
        | RunResult.ok _, Except.error msg =>
          ["Failed to launch CLI in new window: " ++ msg]
        | _, _ => []) ∧
    launchTry Platform.other launchOk
      = Except.error "Moondream-cli only supports macOS and Ubuntu" := by
  refine ⟨?_, ?_, rfl⟩
  · unfold boot
    rcases h : bootCore m env p symlinkOk fs base home with ⟨r, evs⟩
    cases r
    · cases hl : launchTry p launchOk <;> simp [h, hl]
    · simp [h]
  · unfold boot
    rcases h : bootCore m env p symlinkOk fs base home with ⟨r, evs⟩
    cases r
    · cases hl : launchTry p launchOk <;> simp [h, hl]
    · simp [h]

theorem optMapM_isSome (f : List Char → Option Int) (l : List (List Char)) :
    (optMapM f l).isSome = l.all (fun x => (f x).isSome) := by
  induction l with
  | nil => rfl
  | cons x xs ih =>
    unfold optMapM
    cases hf : f x <;> cases hm : optMapM f xs <;> simp_all

theorem stripV_v_append (s : String) : stripV ("v" ++ s).data = s.data := by
  rw [String.data_append]
  simp [stripV]

theorem stripV_V_append (s : String) : stripV ("V" ++ s).data = s.data := by
  rw [String.data_append]
  simp [stripV]

/-- C7: `parse_version` on the three specification examples; for every
string, parsing succeeds exactly when each dot-separated segment of the
prefix-stripped input is numeric; and the leading `v`/`V` strip is
exactly one character. -/
theorem c7_parse_version :
    parse_version "v0.0.10" = some [0, 0, 10] ∧
    parse_version "2.1" = some [2, 1] ∧
    parse_version "x.1" = none ∧
    (∀ s : String, (parse_version s).isSome
        = (splitSeg '.' (stripV s.data)).all (fun seg => (pyIntCh seg).isSome)) ∧
    (∀ s : String, parse_version ("v" ++ s) = verCore s.data ∧
        parse_version ("V" ++ s) = verCore s.data) := by
  refine ⟨by decide, by decide, by decide, ?_, ?_⟩
  · intro s
    unfold parse_version verCore
    exact optMapM_isSome _ _
  · intro s
    unfold parse_version
    rw [stripV_v_append, stripV_V_append]
    exact ⟨rfl, rfl⟩

theorem splitByP_ne_nil (p : Char → Bool) (cs : List Char) : splitByP p cs ≠ [] := by
  cases cs with
  | nil => simp [splitByP]
  | cons c rest =>
    unfold splitByP
    by_cases h : p c = true
    · simp [h]
    · simp only [h, ite_false]
      rcases hm : splitByP p rest with _ | ⟨s, ss⟩ <;> simp [hm]

theorem digitRunsAux_eq (cs : List Char) :
    ∀ (acc s : List Char) (ss : List (List Char)),
      splitByP (fun c => !c.isDigit) cs = s :: ss →
      digitRunsAux cs acc =
        (if (acc.reverse ++ s).isEmpty then [] else [acc.reverse ++ s])
          ++ ss.filter (fun l => !l.isEmpty) := by
  induction cs with
  | nil =>
    intro acc s ss h
    simp only [splitByP] at h
    obtain ⟨hs, hss⟩ := List.cons.inj h
    subst hs
    subst hss
    cases acc <;> simp [digitRunsAux]
  | cons c rest ih =>
    intro acc s ss h
    rcases hsp : splitByP (fun c => !c.isDigit) rest with _ | ⟨s', ss'⟩
    · exact absurd hsp (splitByP_ne_nil _ _)
    · by_cases hd : c.isDigit = true
      · simp only [splitByP, hd, Bool.not_true, ite_false, hsp] at h
        obtain ⟨hs, hss⟩ := List.cons.inj h
        subst hs
        subst hss
        simp only [digitRunsAux, hd, ite_true]
        rw [ih (c :: acc) s' ss' hsp]
        simp [List.append_assoc]
      · have hd' : c.isDigit = false := eq_false_of_ne_true hd
        simp only [splitByP, hd', Bool.not_false, ite_true, hsp] at h
        obtain ⟨hs, hss⟩ := List.cons.inj h
        subst hs
        subst hss
        simp only [digitRunsAux, hd', Bool.false_eq_true, ite_false]
        rw [ih [] s' ss' hsp]
        cases acc <;> cases hse : s'.isEmpty <;>
          simp_all [List.filter_cons]

theorem digitRunsAux_nil_eq (cs : List Char) :
    digitRunsAux cs [] = maximalDigitRuns cs := by
  rcases hsp : splitByP (fun c => !c.isDigit) cs with _ | ⟨s, ss⟩
  · exact absurd hsp (splitByP_ne_nil _ _)
  · rw [digitRunsAux_eq cs [] s ss hsp]
    unfold maximalDigitRuns
    rw [hsp]
    cases hse : s.isEmpty <;> simp [List.filter_cons, hse]

/-- C8: `parse_revision` on the two specification examples, and for
every string it returns the values of the maximal digit runs in
left-to-right order, falling back to `[0]` when there is no digit. -/
theorem c8_parse_revision :
    parse_revision "2025-04-14-4bit" = [2025, 4, 14, 4] ∧
    parse_revision "stable" = [0] ∧
    ∀ s : String, parse_revision s =
      (if (maximalDigitRuns s.data).isEmpty then [0]
        else (maximalDigitRuns s.data).map (fun r => (digitsToNat r : Int))) := by
  refine ⟨by decide, by decide, ?_⟩
  intro s
  unfold parse_revision
  rw [digitRunsAux_nil_eq]

theorem find?_filter_ne_comm (l : List (String × String)) (p q : String) (h : q ≠ p) :
    (l.filter (fun e => e.1 != p)).find? (fun e => e.1 == q)
      = l.find? (fun e => e.1 == q) := by
  induction l with
  | nil => rfl
  | cons a t ih =>
    by_cases hq : a.1 = q
    · have h1 : (a.1 != p) = true := by simp [bne_iff_ne, hq, h]
      have h2 : (a.1 == q) = true := by simp [hq]
      simp [List.filter_cons, h1, h2]
    · have h2 : (a.1 == q) = false := beq_eq_false_iff_ne.mpr hq
      by_cases hp : a.1 = p
      · have h1 : (a.1 != p) = false := by simp [hp]
        simp [List.filter_cons, h1, h2, ih]
      · have h1 : (a.1 != p) = true := by simp [bne_iff_ne, hp]
        simp [List.filter_cons, h1, h2, ih]

theorem getFile_setFile (fs : FS) (p c q : String) :
    (fs.setFile p c).getFile q = if q = p then some c else fs.getFile q := by
  by_cases h : q = p
  · subst h
    simp [FS.setFile, FS.getFile]
  · have h2 : (p == q) = false := beq_eq_false_iff_ne.mpr (fun hh => h hh.symm)
    simp only [FS.setFile, FS.getFile, h, ite_false]
    rw [show List.find? (fun e => e.1 == q) ((p, c) :: fs.files.filter (fun e => e.1 != p))
        = List.find? (fun e => e.1 == q) (fs.files.filter (fun e => e.1 != p)) from by
      simp [h2], find?_filter_ne_comm _ _ _ h]

theorem isDir_setFile (fs : FS) (p c q : String) :
    (fs.setFile p c).isDir q = fs.isDir q := rfl

theorem dirs_setFile (fs : FS) (p c : String) :
    (fs.setFile p c).dirs = fs.dirs := rfl

theorem getFile_mkdirp (fs : FS) (ps : List String) (q : String) :
    (fs.mkdirp ps).getFile q = fs.getFile q := rfl

theorem isDir_mkdirp (fs : FS) (ps : List String) (q : String) :
    (fs.mkdirp ps).isDir q = (fs.isDir q || ps.contains q) := by
  simp only [FS.mkdirp, FS.isDir, List.contains, List.elem_eq_mem, List.mem_append,
    List.mem_filter]
  by_cases hd : q ∈ fs.dirs <;> by_cases hp : q ∈ ps <;> simp [hd, hp]

theorem getFile_removeFile (fs : FS) (p q : String) :
    (fs.removeFile p).getFile q = if q = p then none else fs.getFile q := by
  by_cases h : q = p
  · subst h
    simp [FS.removeFile, FS.getFile, find?_filter_ne_eq_none]
  · simp only [FS.removeFile, FS.getFile, h, ite_false]
    rw [find?_filter_ne_comm _ _ _ h]

theorem isDir_removeFile (fs : FS) (p q : String) :
    (fs.removeFile p).isDir q = fs.isDir q := rfl

theorem isFile_rmtree_false {fs : FS} {d q : String} (h : fs.isFile q = false) :
    (fs.rmtree d).isFile q = false := by
  simp only [FS.isFile, FS.getFile] at h ⊢
  rcases hf : List.find? (fun e => e.1 == q) (fs.rmtree d).files with _ | x
  · simp [hf]
  · exfalso
    have hx := List.find?_some hf
    have hmem : x ∈ fs.files := List.mem_of_mem_filter (List.mem_of_find?_eq_some hf)
    have hnone : List.find? (fun e => e.1 == q) fs.files = none := by
      rcases hg : List.find? (fun e => e.1 == q) fs.files with _ | y
      · exact hg
      · rw [hg] at h
        simp at h
    exact (List.find?_eq_none.mp hnone x hmem) hx

theorem isDir_rmtree_false {fs : FS} {d q : String} (h : fs.isDir q = false) :
    (fs.rmtree d).isDir q = false := by
  simp only [FS.isDir] at h ⊢
  cases hc : (fs.rmtree d).dirs.contains q
  · rfl
  · have hq : q ∈ fs.dirs := List.mem_of_mem_filter (List.elem_iff.mp hc)
    have hq' : fs.dirs.contains q = true := List.elem_iff.mpr hq
    rw [hq'] at h
    exact Bool.noConfusion h

theorem pathExists_rmtree_false {fs : FS} {d q : String}
    (h : fs.pathExists q = false) : (fs.rmtree d).pathExists q = false := by
  obtain ⟨h1, h2⟩ := Bool.or_eq_false_iff.mp h
  exact Bool.or_eq_false_iff.mpr ⟨isFile_rmtree_false h1, isDir_rmtree_false h2⟩

theorem pathExists_setFile_other {fs : FS} {p c q : String} (hne : q ≠ p)
    (h : fs.pathExists q = false) : (fs.setFile p c).pathExists q = false := by
  obtain ⟨h1, h2⟩ := Bool.or_eq_false_iff.mp h
  refine Bool.or_eq_false_iff.mpr ⟨?_, h2⟩
  simp only [FS.isFile, getFile_setFile, hne, ite_false]
  exact h1

theorem pathExists_removeFile_false {fs : FS} {p q : String}
    (h : fs.pathExists q = false) : (fs.removeFile p).pathExists q = false := by
  obtain ⟨h1, h2⟩ := Bool.or_eq_false_iff.mp h
  refine Bool.or_eq_false_iff.mpr ⟨?_, h2⟩
  by_cases hq : q = p
  · simp [FS.isFile, getFile_removeFile, hq]
  · simp only [FS.isFile, getFile_removeFile, hq, ite_false]
    exact h1

theorem strApp_left_cancel {a b c : String} (h : a ++ b = a ++ c) : b = c := by
  have h2 := congrArg String.data h
  rw [String.data_append, String.data_append] at h2
  have h3 := List.append_cancel_left h2
  cases b with
  | mk d =>
    cases c with
    | mk d' => exact congrArg String.mk h3

theorem strApp_ne_of_ne (home : String) {a b : String} (h : a ≠ b) :
    home ++ a ≠ home ++ b :=
  fun he => h (strApp_left_cancel he)

theorem strApp_suffix (a b : String) : b.data <:+ (a ++ b).data :=
  ⟨a.data, (String.data_append a b).symm⟩

theorem ne_of_no_suffix {a b c : String} (h : ¬ b.data <:+ c.data) : a ++ b ≠ c :=
  fun he => h (he ▸ strApp_suffix a b)

/-- C3: when the CLI entry-point path does not exist, wrapper
installation fails with the missing-entry-point error, and when the
entry point exists but the interpreter inside the venv does not, it
fails with the missing-interpreter error; in both cases the error
carries the input filesystem unchanged — no mutation happened before
the raise. -/
theorem c3_precondition_failures (p : Platform) (symlinkOk : Bool) (home : String)
    (fs : FS) (cli venv name : String) :
    (fs.pathExists cli = false →
      install_moondream_cli p symlinkOk home fs cli venv name
        = IResult.err InstallErr.missingEntryPoint fs) ∧
    (fs.pathExists cli = true → fs.pathExists (venv ++ "/bin/python") = false →
      install_moondream_cli p symlinkOk home fs cli venv name
        = IResult.err InstallErr.missingInterpreter fs) := by
  constructor
  · intro h
    unfold install_moondream_cli
    simp [h]
  · intro h1 h2
    unfold install_moondream_cli
    simp [h1, h2]

theorem install_missing_entry (p : Platform) (symlinkOk : Bool) (home : String)
    {fs : FS} (cli venv name : String) (h : fs.pathExists cli = false) :
    install_moondream_cli p symlinkOk home fs cli venv name
      = IResult.err InstallErr.missingEntryPoint fs := by
  unfold install_moondream_cli
  simp [h]

theorem entry_ne_tar (base : String) :
    base ++ "/moondream_cli/moondream-cli.py" ≠ base ++ "/moondream_cli.tar.gz" :=
  strApp_ne_of_ne base (by decide)

theorem pathExists_ite_false {c : Prop} [Decidable c] {a b : FS} {q : String}
    (ha : a.pathExists q = false) (hb : b.pathExists q = false) :
    (if c then a else b).pathExists q = false := by
  split
  · exact ha
  · exact hb

theorem dlfail_pathExists {env : NetEnv} {url : String} {fs : FS} {base q : String}
    (hdl : env.downloadOk = false) (hq : fs.pathExists q = false)
    (hne : q ≠ base ++ "/moondream_cli.tar.gz") :
    ((dlExtract env url fs base).2.1).pathExists q = false := by
  simp only [dlExtract, hdl, Bool.false_eq_true, if_false]
  have hfs1 : (if fs.isDir (base ++ "/moondream_cli") = true then
      (if env.rmtreeOk = true then fs.rmtree (base ++ "/moondream_cli") else fs)
      else fs).pathExists q = false :=
    pathExists_ite_false (pathExists_ite_false (pathExists_rmtree_false hq) hq) hq
  have hfs2 : (if env.partialOnFail = true then
      (if fs.isDir (base ++ "/moondream_cli") = true then
        (if env.rmtreeOk = true then fs.rmtree (base ++ "/moondream_cli") else fs)
        else fs).setFile (base ++ "/moondream_cli.tar.gz") "partial"
      else
      (if fs.isDir (base ++ "/moondream_cli") = true then
        (if env.rmtreeOk = true then fs.rmtree (base ++ "/moondream_cli") else fs)
        else fs)).pathExists q = false :=
    pathExists_ite_false (pathExists_setFile_other hne hfs1) hfs1
  exact pathExists_ite_false (pathExists_removeFile_false hfs2) hfs2

/-- C3 witness: on an empty filesystem the entry-point check fails
first; with only the entry-point file present the interpreter check
fails; both leave the filesystem untouched. -/
theorem c3_precondition_failures_witness :
    install_moondream_cli Platform.linux true "/h" { files := [], dirs := [] }
        "/b/moondream_cli/moondream-cli.py" "/b/.venv" "moondream"
      = IResult.err InstallErr.missingEntryPoint { files := [], dirs := [] } ∧
    install_moondream_cli Platform.linux true "/h"
        { files := [("/b/moondream_cli/moondream-cli.py", "code")], dirs := [] }
        "/b/moondream_cli/moondream-cli.py" "/b/.venv" "moondream"
      = IResult.err InstallErr.missingInterpreter
          { files := [("/b/moondream_cli/moondream-cli.py", "code")], dirs := [] } :=
  ⟨(c3_precondition_failures _ _ _ _ _ _ _).1 (by decide),
   (c3_precondition_failures _ _ _ _ _ _ _).2 (by decide) (by decide)⟩

/-- C10: the download-and-extract operation never propagates a failure
— a failed download yields the return value `false` — and because
`update` and `boot` ignore that boolean and run wrapper installation
unconditionally afterwards, a failed download (with no entry point left
on disk) surfaces to the caller as the missing-entry-point error from
wrapper installation rather than as a download error. -/
theorem c10_failed_download_surfaces_as_missing_entry :
    (∀ (env : NetEnv) (url : String) (fs : FS) (base : String),
        env.downloadOk = false → (dlExtract env url fs base).1 = false) ∧
    (∀ (m : Manifest) (active : String) (env : NetEnv) (p : Platform)
        (symlinkOk : Bool) (fs : FS) (base home : String),
        (check_for_update active m).ood = true →
        env.downloadOk = false →
        fs.pathExists (base ++ "/moondream_cli/moondream-cli.py") = false →
        ((update m active env p symlinkOk fs base home).1).errOf
          = some InstallErr.missingEntryPoint) ∧
    (∀ (m : Manifest) (env : NetEnv) (p : Platform) (symlinkOk launchOk : Bool)
        (fs : FS) (base home : String),
        env.downloadOk = false →
        fs.pathExists (base ++ "/moondream_cli/moondream-cli.py") = false →
        ((boot m env p symlinkOk launchOk fs base home).1).errOf
          = some InstallErr.missingEntryPoint) := by
  refine ⟨?_, ?_, ?_⟩
  · intro env url fs base hdl
    simp [dlExtract, hdl]
  · intro m active env p symlinkOk fs base home hood hdl hent
    have hafter : ((dlExtract env m.url fs base).2.1).pathExists
        (base ++ "/moondream_cli/moondream-cli.py") = false :=
      dlfail_pathExists hdl hent (entry_ne_tar base)
    simp only [update, hood, Bool.not_true, Bool.false_eq_true, if_false]
    rw [install_missing_entry p symlinkOk home _ _ _ hafter]
    rfl
  · intro m env p symlinkOk launchOk fs base home hdl hent
    have hafter : ((dlExtract env m.url fs base).2.1).pathExists
        (base ++ "/moondream_cli/moondream-cli.py") = false :=
      dlfail_pathExists hdl hent (entry_ne_tar base)
    simp only [boot, bootCore, hent, Bool.not_false, if_true]
    rw [install_missing_entry p symlinkOk home _ _ _ hafter]
    rfl

/-- C10 witness: an out-of-date state with a failing download on an
empty filesystem makes `update` end in the missing-entry-point error. -/
theorem c10_failed_download_witness :
    ((update { version := "1.1.0", url := "u" } "1.0.0"
        { downloadOk := false, partialOnFail := false, extractOk := false,
          payload := [], rmtreeOk := false }
        Platform.linux true { files := [], dirs := [] } "/b" "/h").1).errOf
      = some InstallErr.missingEntryPoint :=
  c10_failed_download_surfaces_as_missing_entry.2.1 _ _ _ _ _ _ _ _
    (by decide) (by decide) (by decide)

theorem splitSeg_ne_nil (sep : Char) (cs : List Char) : splitSeg sep cs ≠ [] := by
  cases cs with
  | nil => simp [splitSeg]
  | cons c rest =>
    unfold splitSeg
    by_cases h : c = sep
    · simp [h]
    · simp only [h, ite_false]
      rcases hm : splitSeg sep rest with _ | ⟨s, ss⟩ <;> simp [hm]

theorem splitSeg_append_sep (sep : Char) (a b : List Char) :
    splitSeg sep (a ++ sep :: b) = splitSeg sep a ++ splitSeg sep b := by
  induction a with
  | nil => simp [splitSeg]
  | cons c a' ih =>
    by_cases h : c = sep
    · simp [List.cons_append, splitSeg, h, ih]
    · simp only [List.cons_append, splitSeg, h, ite_false]
      rcases hm : splitSeg sep a' with _ | ⟨s, ss⟩
      · exact absurd hm (splitSeg_ne_nil sep a')
      · simp [ih, hm]

theorem splitSeg_no_sep (sep : Char) (cs : List Char) (h : sep ∉ cs) :
    splitSeg sep cs = [cs] := by
  induction cs with
  | nil => rfl
  | cons c rest ih =>
    have hc : ¬ c = sep := fun hh => h (List.mem_cons.mpr (Or.inl hh.symm))
    have hrest : sep ∉ rest := fun hm => h (List.mem_cons_of_mem c hm)
    simp [splitSeg, hc, ih hrest]

theorem splitSeg_length (sep : Char) (cs : List Char) :
    (splitSeg sep cs).length = cs.count sep + 1 := by
  induction cs with
  | nil => simp [splitSeg]
  | cons c rest ih =>
    by_cases h : c = sep
    · subst h
      simp [splitSeg, ih, List.count_cons_self]
    · rcases hm : splitSeg sep rest with _ | ⟨s, ss⟩
      · exact absurd hm (splitSeg_ne_nil sep rest)
      · rw [hm] at ih
        simp only [splitSeg, h, ite_false, hm, List.length_cons] at ih ⊢
        rw [List.count_cons]
        simp [h, fun hh : sep = c => h hh.symm]
        omega

theorem splitSeg_line (pl : List Char) (hpl : '\n' ∉ pl) :
    splitSeg '\n' (pl ++ ['\n']) = [pl, []] := by
  rw [show pl ++ ['\n'] = pl ++ '\n' :: [] from rfl, splitSeg_append_sep,
    splitSeg_no_sep _ _ hpl]
  rfl

theorem pySplitCh_nil_iff (cs : List Char) : pySplitCh cs = [] ↔ cs = [] := by
  constructor
  · intro h
    by_contra hne
    by_cases hmem : '\n' ∈ cs
    · have hcount : 0 < cs.count '\n' := List.count_pos_iff.mpr hmem
      simp only [pySplitCh] at h
      split at h
      · have hlen := congrArg List.length h
        rw [List.length_dropLast, splitSeg_length] at hlen
        simp at hlen
        omega
      · exact absurd h (splitSeg_ne_nil _ _)
    · simp only [pySplitCh, splitSeg_no_sep _ _ hmem] at h
      simp [hne] at h
  · intro h
    subst h
    rfl

theorem pyLines_isEmpty_iff (s : String) : (pyLines s).isEmpty = true ↔ s.data = [] := by
  rw [pyLines, List.isEmpty_iff, List.map_eq_nil_iff, pySplitCh_nil_iff]

theorem pySplitCh_append_line (cs pl : List Char) (hpl : '\n' ∉ pl) :
    pySplitCh (cs ++ '\n' :: (pl ++ ['\n'])) = splitSeg '\n' cs ++ [pl] := by
  have h1 : splitSeg '\n' (cs ++ '\n' :: (pl ++ ['\n']))
      = splitSeg '\n' cs ++ splitSeg '\n' (pl ++ ['\n']) := splitSeg_append_sep _ _ _
  simp only [pySplitCh, h1, splitSeg_line pl hpl]
  have hlast : (splitSeg '\n' cs ++ [pl, []]).getLast? = some ([] : List Char) := by
    rw [List.getLast?_append_of_ne_nil _ (by simp)]
    rfl
  rw [hlast]
  simp only [ite_true]
  rw [show splitSeg '\n' cs ++ [pl, []] = (splitSeg '\n' cs ++ [pl]) ++ [[]] by simp,
    List.dropLast_concat]

theorem pySplitCh_line (pl : List Char) (hpl : '\n' ∉ pl) :
    pySplitCh (pl ++ ['\n']) = [pl] := by
  simp only [pySplitCh, splitSeg_line pl hpl]
  rfl

theorem pySplitCh_withPathLine (content : String) :
    pySplitCh (withPathLine content).data
      = (if (pyLines content).isEmpty then [] else splitSeg '\n' content.data)
        ++ [pathLine.data] := by
  by_cases hc : (pyLines content).isEmpty = true
  · have hdata : content.data = [] := (pyLines_isEmpty_iff content).mp hc
    simp only [withPathLine, hc, ite_true]
    rw [String.data_append, String.data_append, String.data_append, hdata]
    simp only [List.nil_append]
    exact pySplitCh_line pathLine.data (by decide)
  · have hc' : (pyLines content).isEmpty = false := eq_false_of_ne_true hc
    simp only [withPathLine, hc', Bool.false_eq_true, ite_false]
    rw [String.data_append, String.data_append, String.data_append]
    rw [show ("\n" : String).data = ['\n'] from rfl]
    rw [List.append_assoc, List.append_assoc]
    simp only [List.singleton_append]
    exact pySplitCh_append_line content.data pathLine.data (by decide)

theorem mem_pyLines (s l : String) : l ∈ pyLines s ↔ l.data ∈ pySplitCh s.data := by
  constructor
  · intro h
    obtain ⟨x, hx, he⟩ := List.mem_map.mp h
    have hxd : x = l.data := congrArg String.data he
    exact hxd ▸ hx
  · intro h
    exact List.mem_map.mpr ⟨l.data, h, by cases l; rfl⟩

theorem pathLine_mem_withPathLine (content : String) :
    pathLine ∈ pyLines (withPathLine content) := by
  rw [mem_pyLines, pySplitCh_withPathLine]
  simp

theorem count_pyLines_withPathLine (content : String)
    (h : pathLine ∉ pyLines content) :
    (pyLines (withPathLine content)).count pathLine = 1 := by
  unfold pyLines
  rw [pySplitCh_withPathLine, List.map_append, List.count_append]
  have h0 : (((if (pyLines content).isEmpty then ([] : List (List Char))
      else splitSeg '\n' content.data)).map (fun l => String.mk l)).count pathLine = 0 := by
    rw [List.count_eq_zero]
    intro hmem
    obtain ⟨x, hx, he⟩ := List.mem_map.mp hmem
    have hxd : x = pathLine.data := congrArg String.data he
    subst hxd
    split at hx
    · exact absurd hx (List.not_mem_nil _)
    · apply h
      rw [mem_pyLines]
      simp only [pySplitCh]
      split
      · rename_i hlast
        have hsegne : splitSeg '\n' content.data ≠ [] := splitSeg_ne_nil _ _
        rw [← List.dropLast_append_getLast hsegne] at hx
        rcases List.mem_append.mp hx with hm | hm
        · exact hm
        · exfalso
          have hgl : (splitSeg '\n' content.data).getLast hsegne = [] := by
            have := List.getLast?_eq_getLast _ hsegne
            rw [hlast] at this
            exact (Option.some_inj.mp this).symm
          rw [List.mem_singleton] at hm
          rw [hgl] at hm
          exact absurd hm (by decide)
      · exact hx
  rw [h0]
  simp

theorem pathExists_setFile (fs : FS) (p c q : String) :
    (fs.setFile p c).pathExists q = (if q = p then true else fs.pathExists q) := by
  by_cases h : q = p
  · subst h
    simp [FS.pathExists, FS.isFile, getFile_setFile]
  · simp only [FS.pathExists, FS.isFile, FS.isDir]
    rw [getFile_setFile, dirs_setFile]
    simp [h]

theorem pathExists_setFile_true {fs : FS} {p c q : String}
    (h : fs.pathExists q = true) : (fs.setFile p c).pathExists q = true := by
  rw [pathExists_setFile]
  split
  · rfl
  · exact h

theorem pathExists_mkdirp_true {fs : FS} {ps : List String} {q : String}
    (h : fs.pathExists q = true) : (fs.mkdirp ps).pathExists q = true := by
  simp only [FS.pathExists, FS.isFile, getFile_mkdirp, isDir_mkdirp] at h ⊢
  rcases Bool.or_eq_true_iff.mp h with h1 | h1
  · simp [h1]
  · simp [h1]

theorem addPathLine_getFile_other {fs : FS} {rc q : String} (h : q ≠ rc) :
    (addPathLine fs rc).getFile q = fs.getFile q := by
  simp only [addPathLine]
  split
  · rfl
  · split
    · rfl
    · rw [getFile_setFile]
      simp [h]

theorem dirs_addPathLine (fs : FS) (rc : String) : (addPathLine fs rc).dirs = fs.dirs := by
  simp only [addPathLine]
  split
  · rfl
  · split
    · rfl
    · rfl

theorem isDir_addPathLine (fs : FS) (rc q : String) :
    (addPathLine fs rc).isDir q = fs.isDir q := by
  simp [FS.isDir, dirs_addPathLine]

theorem foldAdd_getFile_not_mem (ps : List String) (fs : FS) (q : String) (h : q ∉ ps) :
    (ps.foldl addPathLine fs).getFile q = fs.getFile q := by
  induction ps generalizing fs with
  | nil => rfl
  | cons a rest ih =>
    simp only [List.foldl_cons]
    rw [ih _ (fun hm => h (List.mem_cons_of_mem a hm)),
      addPathLine_getFile_other (fun he => h (List.mem_cons.mpr (Or.inl he)))]

theorem foldAdd_dirs (ps : List String) (fs : FS) :
    (ps.foldl addPathLine fs).dirs = fs.dirs := by
  induction ps generalizing fs with
  | nil => rfl
  | cons a rest ih =>
    simp only [List.foldl_cons]
    rw [ih, dirs_addPathLine]

theorem addPathLine_getFile_congr {fs fs' : FS} {rc : String}
    (hg : fs'.getFile rc = fs.getFile rc) (hd : fs'.isDir rc = fs.isDir rc) :
    (addPathLine fs' rc).getFile rc = (addPathLine fs rc).getFile rc := by
  simp only [addPathLine]
  rw [hg, hd]
  split
  · exact hg
  · split
    · exact hg
    · rw [getFile_setFile, getFile_setFile]
      simp

theorem foldAdd_getFile_mem (ps : List String) (hnd : ps.Nodup) (fs : FS) (rc : String)
    (hrc : rc ∈ ps) :
    (ps.foldl addPathLine fs).getFile rc = (addPathLine fs rc).getFile rc := by
  induction ps generalizing fs with
  | nil => exact absurd hrc (List.not_mem_nil rc)
  | cons a rest ih =>
    simp only [List.foldl_cons]
    rcases List.mem_cons.mp hrc with he | hm
    · subst he
      exact foldAdd_getFile_not_mem rest _ rc (List.nodup_cons.mp hnd).1
    · have hne : rc ≠ a := fun he => (List.nodup_cons.mp hnd).1 (he ▸ hm)
      rw [ih (List.nodup_cons.mp hnd).2 _ hm]
      exact addPathLine_getFile_congr (addPathLine_getFile_other hne) (isDir_addPathLine fs a rc)

theorem pathExists_addPathLine_true {fs : FS} {rc q : String}
    (h : fs.pathExists q = true) : (addPathLine fs rc).pathExists q = true := by
  simp only [addPathLine]
  split
  · exact h
  · split
    · exact h
    · exact pathExists_setFile_true h

theorem pathExists_foldAdd_true (ps : List String) {fs : FS} {q : String}
    (h : fs.pathExists q = true) : (ps.foldl addPathLine fs).pathExists q = true := by
  induction ps generalizing fs with
  | nil => exact h
  | cons a rest ih =>
    simp only [List.foldl_cons]
    exact ih (pathExists_addPathLine_true h)

theorem pathExists_foldAdd_not_mem (ps : List String) (fs : FS) (q : String) (h : q ∉ ps) :
    (ps.foldl addPathLine fs).pathExists q = fs.pathExists q := by
  simp only [FS.pathExists, FS.isFile]
  rw [foldAdd_getFile_not_mem ps fs q h]
  have hdir : (ps.foldl addPathLine fs).isDir q = fs.isDir q := by
    simp [FS.isDir, foldAdd_dirs]
  rw [hdir]

theorem mkdirp_contains {fs : FS} {ps : List String} {a : String} (ha : a ∈ ps) :
    (fs.mkdirp ps).isDir a = true := by
  rw [isDir_mkdirp]
  have hc : ps.contains a = true := List.elem_iff.mpr ha
  rw [hc]
  simp

theorem wrapper_path_eq (home : String) :
    home ++ "/.local/bin" ++ "/" ++ "moondream" = home ++ "/.local/bin/moondream" := by
  rw [String.append_assoc, String.append_assoc]
  rfl

theorem wrapper_ne_usr (home : String) :
    home ++ "/.local/bin/moondream" ≠ "/usr/local/bin/moondream" :=
  ne_of_no_suffix (by decide)

theorem profileFiles_nodup (p : Platform) (home : String) : (profileFiles p home).Nodup := by
  have hinj : Function.Injective (fun s => home ++ s) := fun a b h => strApp_left_cancel h
  cases p with
  | macOS =>
    have he : profileFiles Platform.macOS home
        = [("/.zprofile" : String), "/.zshrc", "/.bash_profile", "/.bashrc"].map
            (fun s => home ++ s) := rfl
    rw [he]
    exact List.Nodup.map hinj (by decide)
  | linux =>
    have he : profileFiles Platform.linux home
        = [("/.profile" : String), "/.bash_profile", "/.zshrc", "/.bashrc"].map
            (fun s => home ++ s) := rfl
    rw [he]
    exact List.Nodup.map hinj (by decide)
  | other =>
    have he : profileFiles Platform.other home
        = [("/.profile" : String), "/.bash_profile", "/.zshrc", "/.bashrc"].map
            (fun s => home ++ s) := rfl
    rw [he]
    exact List.Nodup.map hinj (by decide)

theorem profile_ne (p : Platform) (home : String) {rc : String}
    (hrc : rc ∈ profileFiles p home) :
    rc ≠ home ++ "/.local/bin/moondream" ∧ rc ≠ "/usr/local/bin/moondream" ∧
    rc ≠ home ++ "/.local" ∧ rc ≠ home ++ "/.local/bin" := by
  cases p <;>
    simp only [profileFiles, List.mem_cons, List.not_mem_nil, or_false] at hrc <;>
    rcases hrc with rfl | rfl | rfl | rfl <;>
    exact ⟨strApp_ne_of_ne home (by decide), ne_of_no_suffix (by decide),
      strApp_ne_of_ne home (by decide), strApp_ne_of_ne home (by decide)⟩

theorem install_ok (p : Platform) (symlinkOk : Bool) (home : String) (fs : FS)
    (cli venv : String) (h1 : fs.pathExists cli = true)
    (h2 : fs.pathExists (venv ++ "/bin/python") = true) :
    install_moondream_cli p symlinkOk home fs cli venv "moondream"
      = IResult.ok (installBody p symlinkOk home fs cli venv)
          (home ++ "/.local/bin/moondream") := by
  simp only [install_moondream_cli, installBody]
  rw [h1, h2]
  simp only [Bool.not_true, Bool.false_eq_true, if_false]
  rw [wrapper_path_eq home,
    show ("/usr/local/bin/" ++ "moondream" : String) = "/usr/local/bin/moondream" from rfl]

theorem installBody_dirs (p : Platform) (symlinkOk : Bool) (home : String) (fs : FS)
    (cli venv : String) :
    (installBody p symlinkOk home fs cli venv).dirs
      = (fs.mkdirp [home ++ "/.local", home ++ "/.local/bin"]).dirs := by
  simp only [installBody]
  rw [foldAdd_dirs]
  split
  · split
    · split
      · rfl
      · rfl
    · rfl
  · rfl

theorem installBody_isDir (p : Platform) (symlinkOk : Bool) (home : String) (fs : FS)
    (cli venv : String) {q : String} (hne1 : q ≠ home ++ "/.local")
    (hne2 : q ≠ home ++ "/.local/bin") :
    (installBody p symlinkOk home fs cli venv).isDir q = fs.isDir q := by
  have hdirs := installBody_dirs p symlinkOk home fs cli venv
  simp only [FS.isDir, hdirs]
  have h2 := isDir_mkdirp fs [home ++ "/.local", home ++ "/.local/bin"] q
  simp only [FS.isDir] at h2
  rw [h2]
  have hc : ([home ++ "/.local", home ++ "/.local/bin"] : List String).contains q = false := by
    simp [List.contains, List.elem_eq_mem, hne1, hne2]
  rw [hc]
  simp

theorem installBody_getFile_profile (p : Platform) (symlinkOk : Bool) (home : String)
    (fs : FS) (cli venv : String) {rc : String} (hrc : rc ∈ profileFiles p home) :
    (installBody p symlinkOk home fs cli venv).getFile rc
      = (addPathLine fs rc).getFile rc := by
  obtain ⟨hw, hu, hl1, hl2⟩ := profile_ne p home hrc
  simp only [installBody]
  rw [foldAdd_getFile_mem _ (profileFiles_nodup p home) _ _ hrc]
  have hg2 : (((fs.mkdirp [home ++ "/.local", home ++ "/.local/bin"]).setFile
      (home ++ "/.local/bin/moondream")
      (wrapperScript (venv ++ "/bin/python") cli)).getFile rc) = fs.getFile rc := by
    rw [getFile_setFile]
    simp only [hw, ite_false]
    exact getFile_mkdirp _ _ _
  have hdall : ∀ g : FS,
      g.dirs = (fs.mkdirp [home ++ "/.local", home ++ "/.local/bin"]).dirs →
      g.isDir rc = fs.isDir rc := by
    intro g hg
    simp only [FS.isDir, hg]
    have h2 := isDir_mkdirp fs [home ++ "/.local", home ++ "/.local/bin"] rc
    simp only [FS.isDir] at h2
    rw [h2]
    have hc : ([home ++ "/.local", home ++ "/.local/bin"] : List String).contains rc = false := by
      simp [List.contains, List.elem_eq_mem, hl1, hl2]
    rw [hc]
    simp
  refine addPathLine_getFile_congr ?_ ?_
  · split
    · split
      · split
        · rw [getFile_setFile]
          simp only [hu, ite_false]
          exact hg2
        · exact hg2
      · exact hg2
    · exact hg2
  · split
    · split
      · split
        · exact hdall _ rfl
        · exact hdall _ rfl
      · exact hdall _ rfl
    · exact hdall _ rfl

theorem installBody_getFile_wrapper (p : Platform) (symlinkOk : Bool) (home : String)
    (fs : FS) (cli venv : String) :
    (installBody p symlinkOk home fs cli venv).getFile (home ++ "/.local/bin/moondream")
      = some (wrapperScript (venv ++ "/bin/python") cli) := by
  simp only [installBody]
  rw [foldAdd_getFile_not_mem _ _ _ (fun hm => (profile_ne p home hm).1 rfl)]
  have hbase : ((fs.mkdirp [home ++ "/.local", home ++ "/.local/bin"]).setFile
      (home ++ "/.local/bin/moondream")
      (wrapperScript (venv ++ "/bin/python") cli)).getFile (home ++ "/.local/bin/moondream")
      = some (wrapperScript (venv ++ "/bin/python") cli) := by
    rw [getFile_setFile]
    simp
  split
  · split
    · split
      · rw [getFile_setFile]
        simp only [wrapper_ne_usr home, ite_false]
        exact hbase
      · exact hbase
    · exact hbase
  · exact hbase

theorem installBody_pathExists_true (p : Platform) (symlinkOk : Bool) (home : String)
    (fs : FS) (cli venv : String) {q : String} (h : fs.pathExists q = true) :
    (installBody p symlinkOk home fs cli venv).pathExists q = true := by
  simp only [installBody]
  apply pathExists_foldAdd_true
  have hbase : ((fs.mkdirp [home ++ "/.local", home ++ "/.local/bin"]).setFile
      (home ++ "/.local/bin/moondream")
      (wrapperScript (venv ++ "/bin/python") cli)).pathExists q = true :=
    pathExists_setFile_true (pathExists_mkdirp_true h)
  split
  · split
    · split
      · exact pathExists_setFile_true hbase
      · exact hbase
    · exact hbase
  · exact hbase

theorem installBody_usr (home : String) (fs : FS) (cli venv : String) :
    (installBody Platform.linux true home fs cli venv).pathExists
      "/usr/local/bin/moondream" = true := by
  simp only [installBody]
  rw [pathExists_foldAdd_not_mem _ _ _
    (fun hm => (profile_ne Platform.linux home hm).2.1 rfl)]
  split
  · split
    · rw [pathExists_setFile]
      simp
    · rename_i hcond
      simpa using hcond
  · rename_i hp
    exact absurd trivial hp

theorem installBody_profile_content (p : Platform) (symlinkOk : Bool) (home : String)
    (fs : FS) (cli venv : String) {rc : String} (hrc : rc ∈ profileFiles p home)
    (hd : fs.isDir rc = false) :
    pathLine ∈ pyLines (((installBody p symlinkOk home fs cli venv).getFile rc).getD "") := by
  rw [installBody_getFile_profile p symlinkOk home fs cli venv hrc]
  simp only [addPathLine, hd, Bool.false_eq_true, if_false]
  split
  · rename_i hmem
    exact hmem
  · rw [getFile_setFile]
    simp only [ite_true, Option.getD_some]
    exact pathLine_mem_withPathLine _

theorem foldAdd_fixed (ps : List String) (fs : FS)
    (h : ∀ rc ∈ ps, fs.isDir rc = false ∧ pathLine ∈ pyLines ((fs.getFile rc).getD "")) :
    ps.foldl addPathLine fs = fs := by
  induction ps with
  | nil => rfl
  | cons a rest ih =>
    have ha := h a (List.mem_cons_self a rest)
    have hstep : addPathLine fs a = fs := by
      simp only [addPathLine, ha.1, Bool.false_eq_true, if_false]
      exact if_pos ha.2
    simp only [List.foldl_cons, hstep]
    exact ih (fun rc hm => h rc (List.mem_cons_of_mem a hm))

theorem installBody_idempotent (p : Platform) (symlinkOk : Bool) (home : String)
    (B : FS) (cli venv : String)
    (hw : B.getFile (home ++ "/.local/bin/moondream")
      = some (wrapperScript (venv ++ "/bin/python") cli))
    (hd1 : B.isDir (home ++ "/.local") = true)
    (hd2 : B.isDir (home ++ "/.local/bin") = true)
    (husr : p = Platform.linux → symlinkOk = true →
      B.pathExists "/usr/local/bin/moondream" = true)
    (hrc : ∀ rc ∈ profileFiles p home,
      B.isDir rc = false ∧ pathLine ∈ pyLines ((B.getFile rc).getD "")) :
    FS.extEq (installBody p symlinkOk home B cli venv) B := by
  have hmk : B.mkdirp [home ++ "/.local", home ++ "/.local/bin"] = B := by
    simp only [FS.mkdirp]
    have c1 : B.dirs.contains (home ++ "/.local") = true := hd1
    have c2 : B.dirs.contains (home ++ "/.local/bin") = true := hd2
    have hfil : List.filter (fun d => !B.dirs.contains d)
        [home ++ "/.local", home ++ "/.local/bin"] = [] := by
      simp [List.filter_cons, List.elem_iff.mp c1, List.elem_iff.mp c2]
    rw [hfil, List.append_nil]
  have hg2get : ∀ q, (B.setFile (home ++ "/.local/bin/moondream")
      (wrapperScript (venv ++ "/bin/python") cli)).getFile q = B.getFile q := by
    intro q
    rw [getFile_setFile]
    split
    · rename_i hq
      rw [hq, hw]
    · rfl
  have hg2usr : (B.setFile (home ++ "/.local/bin/moondream")
      (wrapperScript (venv ++ "/bin/python") cli)).pathExists "/usr/local/bin/moondream"
      = B.pathExists "/usr/local/bin/moondream" := by
    rw [pathExists_setFile]
    simp only [ite_eq_right_iff]
    intro hq
    exact absurd hq.symm (wrapper_ne_usr home)
  have hcnd : ∀ rc ∈ profileFiles p home,
      (B.setFile (home ++ "/.local/bin/moondream")
        (wrapperScript (venv ++ "/bin/python") cli)).isDir rc = false ∧
      pathLine ∈ pyLines (((B.setFile (home ++ "/.local/bin/moondream")
        (wrapperScript (venv ++ "/bin/python") cli)).getFile rc).getD "") := by
    intro rc hm
    refine ⟨?_, ?_⟩
    · rw [isDir_setFile]
      exact (hrc rc hm).1
    · rw [hg2get rc]
      exact (hrc rc hm).2
  constructor
  · intro q
    simp only [installBody]
    rw [hmk]
    split
    · rename_i hp
      split
      · rename_i hex
        split
        · rename_i hsym
          exfalso
          rw [hg2usr, husr hp hsym] at hex
          simp at hex
        · rw [foldAdd_fixed _ _ hcnd]
          exact hg2get q
      · rw [foldAdd_fixed _ _ hcnd]
        exact hg2get q
    · rw [foldAdd_fixed _ _ hcnd]
      exact hg2get q
  · simp only [installBody]
    rw [hmk]
    split
    · rename_i hp
      split
      · rename_i hex
        split
        · rename_i hsym
          exfalso
          rw [hg2usr, husr hp hsym] at hex
          simp at hex
        · rw [foldAdd_fixed _ _ hcnd]
          rfl
      · rw [foldAdd_fixed _ _ hcnd]
        rfl
    · rw [foldAdd_fixed _ _ hcnd]
      rfl

/-- C2 counterexample: on a filesystem satisfying the preconditions in
which `/h/.profile` does not exist, wrapper installation creates it —
refuting the claim that no profile file which does not already exist is
created. -/
theorem c2_counterexample :
    ({ files := [("/b/cli.py", "x"), ("/b/.venv/bin/python", "y")],
        dirs := [] } : FS).isFile "/h/.profile" = false ∧
    (installFS Platform.linux true "/h"
        { files := [("/b/cli.py", "x"), ("/b/.venv/bin/python", "y")], dirs := [] }
        "/b/cli.py" "/b/.venv" "moondream").isFile "/h/.profile" = true := by
  constructor
  · decide
  · decide

/-- C2 (amended): for every profile file in the platform's list,
wrapper installation appends the PATH line `export
PATH="$HOME/.local/bin:$PATH"` iff that exact line is not already
present among the file's lines, a missing file being treated as having
no lines and being created with the line (rather than left uncreated);
afterwards the file holds exactly one copy of the line; the wrapper is
written with the fixed script content; and a second invocation with
identical inputs leaves every file's bytes and the directory set
unchanged (in particular wrapper content is byte-identical and no PATH
line is duplicated). -/
theorem c2_profile_append_iff_and_idempotent (p : Platform) (symlinkOk : Bool)
    (home : String) (fs : FS) (cli venv : String)
    (h1 : fs.pathExists cli = true)
    (h2 : fs.pathExists (venv ++ "/bin/python") = true)
    (hd : ∀ rc ∈ profileFiles p home, fs.isDir rc = false) :
    (∀ rc ∈ profileFiles p home,
      (pathLine ∈ pyLines ((fs.getFile rc).getD "") →
        (installFS p symlinkOk home fs cli venv "moondream").getFile rc
          = fs.getFile rc) ∧
      (pathLine ∉ pyLines ((fs.getFile rc).getD "") →
        (installFS p symlinkOk home fs cli venv "moondream").getFile rc
          = some (withPathLine ((fs.getFile rc).getD "")) ∧
        (pyLines (((installFS p symlinkOk home fs cli venv "moondream").getFile
            rc).getD "")).count pathLine = 1)) ∧
    (installFS p symlinkOk home fs cli venv "moondream").getFile
        (home ++ "/.local/bin/moondream")
      = some (wrapperScript (venv ++ "/bin/python") cli) ∧
    FS.extEq
      (installFS p symlinkOk home (installFS p symlinkOk home fs cli venv "moondream")
        cli venv "moondream")
      (installFS p symlinkOk home fs cli venv "moondream") := by
  have hia : installFS p symlinkOk home fs cli venv "moondream"
      = installBody p symlinkOk home fs cli venv := by
    unfold installFS
    rw [install_ok p symlinkOk home fs cli venv h1 h2]
    rfl
  refine ⟨?_, ?_, ?_⟩
  · intro rc hrc
    constructor
    · intro hmem
      rw [hia, installBody_getFile_profile p symlinkOk home fs cli venv hrc]
      simp only [addPathLine, hd rc hrc, Bool.false_eq_true, if_false]
      rw [if_pos hmem]
    · intro hnm
      rw [hia, installBody_getFile_profile p symlinkOk home fs cli venv hrc]
      have hset : (addPathLine fs rc).getFile rc
          = some (withPathLine ((fs.getFile rc).getD "")) := by
        simp only [addPathLine, hd rc hrc, Bool.false_eq_true, if_false]
        rw [if_neg hnm, getFile_setFile]
        simp
      refine ⟨hset, ?_⟩
      rw [hset]
      simp only [Option.getD_some]
      exact count_pyLines_withPathLine _ hnm
  · rw [hia]
    exact installBody_getFile_wrapper p symlinkOk home fs cli venv
  · have hB1 : (installBody p symlinkOk home fs cli venv).pathExists cli = true :=
      installBody_pathExists_true p symlinkOk home fs cli venv h1
    have hB2 : (installBody p symlinkOk home fs cli venv).pathExists
        (venv ++ "/bin/python") = true :=
      installBody_pathExists_true p symlinkOk home fs cli venv h2
    have hia2 : installFS p symlinkOk home (installBody p symlinkOk home fs cli venv)
        cli venv "moondream"
        = installBody p symlinkOk home (installBody p symlinkOk home fs cli venv) cli venv := by
      unfold installFS
      rw [install_ok p symlinkOk home _ cli venv hB1 hB2]
      rfl
    rw [hia, hia2]
    apply installBody_idempotent
    · exact installBody_getFile_wrapper p symlinkOk home fs cli venv
    · have hdirs := installBody_dirs p symlinkOk home fs cli venv
      simp only [FS.isDir, hdirs]
      exact mkdirp_contains (List.mem_cons_self _ _)
    · have hdirs := installBody_dirs p symlinkOk home fs cli venv
      simp only [FS.isDir, hdirs]
      exact mkdirp_contains (List.mem_cons_of_mem _ (List.mem_cons_self _ _))
    · intro hp hsym
      subst hp
      subst hsym
      exact installBody_usr home fs cli venv
    · intro rc hm
      obtain ⟨hw, hu, hl1, hl2⟩ := profile_ne p home hm
      refine ⟨?_, ?_⟩
      · rw [installBody_isDir p symlinkOk home fs cli venv hl1 hl2]
        exact hd rc hm
      · exact installBody_profile_content p symlinkOk home fs cli venv hm (hd rc hm)

/-- C2 witness: a concrete Linux install on a filesystem holding only
the entry point and the interpreter writes the expected wrapper
script. -/
theorem c2_profile_append_witness :
    (installFS Platform.linux true "/h"
        { files := [("/b/cli.py", "x"), ("/b/.venv/bin/python", "y")], dirs := [] }
        "/b/cli.py" "/b/.venv" "moondream").getFile ("/h" ++ "/.local/bin/moondream")
      = some (wrapperScript ("/b/.venv" ++ "/bin/python") "/b/cli.py") :=
  (c2_profile_append_iff_and_idempotent Platform.linux true "/h"
    { files := [("/b/cli.py", "x"), ("/b/.venv/bin/python", "y")], dirs := [] }
    "/b/cli.py" "/b/.venv" (by decide) (by decide) (by decide)).2.1

end Moondream
